import Mathlib

/-!
Shallow embedding of the aggregation scripts of the GIS-Portfolio repository
(files `To_Run_In_ArcGIS.py` and the two `aggregate_tax_Map_Parcel_ID_GA_AIU_Names`
variants).  The scripts read a spreadsheet, group its rows by a parcel-identifier
column and join the distinct non-null values of three columns into strings, one
output row per group; the ArcGIS variant additionally joins the aggregated table
onto a shapefile and validates the joined fields.

Cell values are modelled by `ParcelAgg.Value`: a pandas cell is either null
(`NaN`/`None`), a string, or a number (modelled by `Int`).  A table is a header
row of column names plus a list of rows of values, exactly the information a
`DataFrame` carries that the scripts inspect.  Header trimming
(`data.columns.str.strip()`) and the lexicographic string order used by
`groupby(sort=True)` are given structurally on `List Char` so that every
definition evaluates inside the kernel.
-/

namespace ParcelAgg

/-- A cell value of the tabular data: null (pandas `NaN`), a string, or a
numeric value (modelled by `Int`). -/
inductive Value where
  | null : Value
  | str : String → Value
  | int : Int → Value
deriving DecidableEq

/-- Whether the value is null, as `Series.dropna` sees it. -/
def Value.isNull : Value → Bool
  | .null => true
  | _ => false

/-- Whether the value is a string; Python `str.join` only accepts strings. -/
def Value.isStr : Value → Bool
  | .str _ => true
  | _ => false

/-- Python `str(v)` on a cell value: identity on strings, decimal rendering of
numbers (`str` is applied by the scripts only after `dropna`, so the null case
is irrelevant; we render it like pandas renders `NaN`). -/
def Value.toPyStr : Value → String
  | .null => "nan"
  | .str s => s
  | .int n => toString n

/-- Sort rank of a value: numbers, then strings, then null, matching pandas
`groupby(sort=True, dropna=False)`, which puts the `NaN` group last. -/
def Value.rank : Value → Nat
  | .int _ => 0
  | .str _ => 1
  | .null => 2

/-- Lexicographic order on character lists by code point, the order Python and
pandas use to sort strings.  Structural so that it evaluates in the kernel. -/
def lexLe : List Char → List Char → Bool
  | [], _ => true
  | _ :: _, [] => false
  | a :: as, b :: bs => if a < b then true else if b < a then false else lexLe as bs

/-- Order used by `groupby(sort=True)` on the group keys: numbers by value,
strings lexicographically, the null key last. -/
def Value.leB : Value → Value → Bool
  | .int a, .int b => decide (a ≤ b)
  | .str a, .str b => lexLe a.data b.data
  | a, b => decide (a.rank ≤ b.rank)

/-- Propositional form of `Value.leB`. -/
def Value.le (a b : Value) : Prop := Value.leB a b = true

instance : DecidableRel Value.le := fun a b => inferInstanceAs (Decidable (Value.leB a b = true))

/-- Python `str.strip()` as the scripts apply it to each column header:
drop leading and trailing whitespace.  Structural over the character list. -/
def pyStrip (s : String) : String :=
  String.mk (((s.data.dropWhile Char.isWhitespace).reverse.dropWhile Char.isWhitespace).reverse)

/-- Deduplication preserving first-seen order with an accumulator of already
seen values; `dedupFirst` below (with empty accumulator) is pandas
`Series.unique`. -/
def dedupSeen (seen : List Value) : List Value → List Value
  | [] => []
  | v :: vs => if v ∈ seen then dedupSeen seen vs else v :: dedupSeen (v :: seen) vs

/-- Pandas `Series.unique`: distinct values in order of first appearance. -/
def dedupFirst (vs : List Value) : List Value := dedupSeen [] vs

/-- Pandas `x.dropna().unique()`: the distinct non-null values of a column
restricted to a group, in order of first appearance. -/
def uniqueNonNull (vs : List Value) : List Value :=
  dedupFirst (vs.filter (fun v => !v.isNull))

/-- The `Name` aggregation lambda `lambda x: ";".join(x.dropna().unique())`:
`str.join` raises `TypeError` when any joined element is not a string. -/
def joinNames (vs : List Value) : Except String String :=
  let u := uniqueNonNull vs
  if u.all Value.isStr then
    Except.ok (String.intercalate ";" (u.map Value.toPyStr))
  else
    Except.error "TypeError: sequence item is not a str instance"

/-- The acreage aggregation lambda `lambda x: ",".join(map(str, x.dropna().unique()))`:
every value is converted with `str` before joining, so it never fails. -/
def joinComma (vs : List Value) : String :=
  String.intercalate "," ((uniqueNonNull vs).map Value.toPyStr)

/-- Index of the first column with the given name, as pandas column lookup
resolves a label to a position. -/
def colIdx (cols : List String) (c : String) : Option Nat :=
  match cols with
  | [] => none
  | c0 :: rest => if c0 = c then some 0 else (colIdx rest c).map (· + 1)

/-- A tabular dataset: a header of column names and the rows of cell values.
This is the part of a pandas `DataFrame` the scripts inspect. -/
structure Table where
  header : List String
  rows : List (List Value)
deriving DecidableEq

/-- A table is rectangular when every row has exactly one cell per header
column; every `DataFrame` parsed from a spreadsheet is. -/
def Table.Rect (t : Table) : Prop := ∀ r ∈ t.rows, r.length = t.header.length

instance (t : Table) : Decidable t.Rect :=
  inferInstanceAs (Decidable (∀ r ∈ t.rows, r.length = t.header.length))

/-- The values of the named column, top to bottom (missing cells read as null). -/
def Table.colValues (t : Table) (c : String) : List Value :=
  match colIdx t.header c with
  | none => []
  | some i => t.rows.map (fun r => r.getD i Value.null)

/-- The rows of the group keyed by `k` under grouping column `g`, in source
order, as `groupby(dropna=False)` partitions them (the null key is a group). -/
def Table.groupRows (t : Table) (g : String) (k : Value) : List (List Value) :=
  match colIdx t.header g with
  | none => []
  | some gi => t.rows.filter (fun r => r.getD gi Value.null == k)

/-- Column `c` restricted to the group keyed by `k`: the series each
aggregation lambda receives. -/
def Table.groupColValues (t : Table) (g c : String) (k : Value) : List Value :=
  match colIdx t.header c with
  | none => []
  | some ci => (t.groupRows g k).map (fun r => r.getD ci Value.null)

/-- Line 27, `data.columns = data.columns.str.strip()`: trim every header name. -/
def stripHeaders (t : Table) : Table :=
  { header := t.header.map pyStrip, rows := t.rows }

/-- Python `if c not in data.columns: data[c] = ""`: append the column filled with
empty strings when absent. -/
def ensureColumn (t : Table) (c : String) : Table :=
  if c ∈ t.header then t
  else { header := t.header ++ [c], rows := t.rows.map (fun r => r ++ [Value.str ""]) }

/-- Lines 39-45 of `To_Run_In_ArcGIS.py`: default the two optional acreage
columns to empty strings when missing. -/
def withDefaults (t : Table) : Table :=
  ensureColumn (ensureColumn t "Acres in Unit") "Gross acres"

/-- Warning emitted when the acreage-unit column is absent. -/
def aiuWarning : String := "Acres in Unit column is missing. Filling with empty strings."

/-- Warning emitted when the gross-acreage column is absent. -/
def gaWarning : String := "Gross acres column is missing. Filling with empty strings."

/-- The `arcpy.AddWarning` messages lines 39-45 produce for the table. -/
def aggWarnings (t : Table) : List String :=
  (if "Acres in Unit" ∈ t.header then [] else [aiuWarning])
    ++ (if "Gross acres" ∈ t.header then [] else [gaWarning])

/-- Lines 29-34 of `To_Run_In_ArcGIS.py`: pick the grouping column, the
parcel-identifier name first, the TPIN name second. -/
def resolveGroupColumn (t : Table) : Option String :=
  if "Tax Map Parcel ID" ∈ t.header then some "Tax Map Parcel ID"
  else if "TPIN" ∈ t.header then some "TPIN"
  else none

/-- The named errors the aggregation can stop with: the two `arcpy.AddError`
configuration errors, the pandas `KeyError` when the `Name` column is absent
from the `.agg` dict lookup, and the `TypeError` from joining non-strings. -/
inductive AggError where
  | missingSheet : AggError
  | missingGroupColumn : AggError
  | keyError : String → AggError
  | typeError : AggError
deriving DecidableEq

/-- One output row of the aggregation for group key `k`: the key, then the
three joined strings, in the column order of the `.agg` dict. -/
def aggRow (t : Table) (g : String) (k : Value) : Except String (List Value) :=
  match joinNames (t.groupColValues g "Name" k) with
  | .error e => .error e
  | .ok names =>
      .ok [k, .str names,
           .str (joinComma (t.groupColValues g "Acres in Unit" k)),
           .str (joinComma (t.groupColValues g "Gross acres" k))]

/-- Monadic map over `Except`, stopping at the first failing element, as a
raised Python exception stops the whole `.agg`. -/
def mapME (f : α → Except ε β) : List α → Except ε (List β)
  | [] => .ok []
  | x :: xs =>
      match f x with
      | .error e => .error e
      | .ok y =>
          match mapME f xs with
          | .error e => .error e
          | .ok ys => .ok (y :: ys)

/-- The group keys in output order: `groupby(sort=True, dropna=False)` lists
each distinct key once, sorted ascending with the null key last. -/
def sortedKeys (t : Table) (g : String) : List Value :=
  List.insertionSort Value.le (dedupFirst (t.colValues g))

/-- Result of a successful aggregation: the warnings written and the table. -/
structure Aggregated where
  warnings : List String
  table : Table
deriving DecidableEq

/-- Lines 29-59 of `To_Run_In_ArcGIS.py` after the sheet has been parsed and
headers stripped: resolve the grouping column, default the two acreage
columns, group with `dropna=False`, aggregate the three columns per group and
rename them to `Names`, `Acres in Unit`, `Gross Acres`.  A missing `Name`
column surfaces as the pandas `KeyError` of the `.agg` dict; a non-string
name value as the `TypeError` of `str.join`. -/
def aggregateCore (data : Table) : Except AggError Aggregated :=
  match resolveGroupColumn data with
  | none => .error .missingGroupColumn
  | some g =>
      let d := withDefaults data
      if "Name" ∈ d.header then
        match mapME (aggRow d g) (sortedKeys d g) with
        | .error _ => .error .typeError
        | .ok rows =>
            .ok { warnings := aggWarnings data,
                  table := { header := [g, "Names", "Acres in Unit", "Gross Acres"],
                             rows := rows } }
      else .error (.keyError "Name")

/-- The table-level pipeline of `aggregate_data`: strip the headers, then
aggregate. -/
def aggregateTable (t : Table) : Except AggError Aggregated :=
  aggregateCore (stripHeaders t)

/-- A parsed Excel workbook: the named sheets with their tables. -/
structure ExcelFile where
  sheets : List (String × Table)
deriving DecidableEq

/-- The workbook sheet names, `pd.ExcelFile(...).sheet_names`. -/
def ExcelFile.sheetNames (xl : ExcelFile) : List String := xl.sheets.map Prod.fst

/-- Lines 17-23 of `To_Run_In_ArcGIS.py`: pick the sheet, `Mapping` first,
`Lead List` second. -/
def resolveSheet (xl : ExcelFile) : Option String :=
  if "Mapping" ∈ xl.sheetNames then some "Mapping"
  else if "Lead List" ∈ xl.sheetNames then some "Lead List"
  else none

/-- Pandas `xl.parse(sheet_name)`: the table of the named sheet. -/
def ExcelFile.parse (xl : ExcelFile) (s : String) : Table :=
  match xl.sheets.find? (fun p => p.fst == s) with
  | some p => p.snd
  | none => { header := [], rows := [] }

/-- The whole of `aggregate_data` on a workbook: resolve the sheet, parse it
and run the table pipeline. -/
def aggregate_data (xl : ExcelFile) : Except AggError Aggregated :=
  match resolveSheet xl with
  | none => .error .missingSheet
  | some s => aggregateTable (xl.parse s)

/-- The batch loop of the `__main__` block: each workbook is processed on its
own, a failure is caught per file and the loop continues with the next one. -/
def processFiles (xls : List ExcelFile) : List (Except AggError Aggregated) :=
  xls.map aggregate_data

/-- The aggregated field names `join_to_shapefile` validates after the join. -/
def requiredJoinFields : List String := ["Names", "Acres in Unit", "Gross Acres"]

/-- Outcome of the join step: either the named validation error carrying the
missing fields, or the export of the joined layer (`CopyFeatures`). -/
inductive JoinOutcome where
  | validationError : List String → JoinOutcome
  | exported : JoinOutcome
deriving DecidableEq

/-- Lines 85-100 of `To_Run_In_ArcGIS.py`.  The `arcpy` effects are external;
`joinedFields` is the field-name list `arcpy.ListFields` reports on the layer
after `AddJoin`.  The function collects the required aggregated fields that
are absent, reports them as a validation error and skips the export when any
are missing, and exports the joined layer otherwise. -/
def join_to_shapefile (joinedFields : List String) : JoinOutcome :=
  let missing := requiredJoinFields.filter (fun f => !joinedFields.contains f)
  if missing.isEmpty then .exported else .validationError missing

/-- Concrete workbook table used by the witnesses: two parcel groups whose
keys first appear out of sorted order, duplicate names, a padded header, and
a row with a null identifier. -/
def exTable : Table :=
  { header := [" Tax Map Parcel ID ", "Name", "Acres in Unit", "Gross acres"],
    rows := [[Value.str "B", Value.str "Smith", Value.int 10, Value.null],
             [Value.str "A", Value.str "Jones", Value.int 5, Value.str "7"],
             [Value.str "B", Value.str "Smith", Value.int 10, Value.null],
             [Value.null, Value.str "Moss", Value.null, Value.null]] }

/-- The aggregation of `exTable`: keys sorted ascending with the null key
last, duplicates collapsed, all-null series joined to the empty string. -/
def exAgg : Aggregated :=
  { warnings := [],
    table := { header := ["Tax Map Parcel ID", "Names", "Acres in Unit", "Gross Acres"],
               rows := [[Value.str "A", Value.str "Jones", Value.str "5", Value.str "7"],
                        [Value.str "B", Value.str "Smith", Value.str "10", Value.str ""],
                        [Value.null, Value.str "Moss", Value.str "", Value.str ""]] } }

/-- Copy of `exTable` with the identifier header already trimmed. -/
def exTrimmed : Table :=
  { header := ["Tax Map Parcel ID", "Name", "Acres in Unit", "Gross acres"],
    rows := exTable.rows }

/-- Table whose group keys first appear in the order B then A. -/
def exOrder : Table :=
  { header := ["Tax Map Parcel ID", "Name"],
    rows := [[Value.str "B", Value.str "X"], [Value.str "A", Value.str "Y"]] }

/-- The aggregation of `exOrder`: rows in sorted key order A then B, with both
acreage columns defaulted and warned about. -/
def exOrderAgg : Aggregated :=
  { warnings := [aiuWarning, gaWarning],
    table := { header := ["Tax Map Parcel ID", "Names", "Acres in Unit", "Gross Acres"],
               rows := [[Value.str "A", Value.str "Y", Value.str "", Value.str ""],
                        [Value.str "B", Value.str "X", Value.str "", Value.str ""]] } }

/-- Table lacking the `Name` column. -/
def exNoName : Table :=
  { header := ["Tax Map Parcel ID"], rows := [[Value.str "A"]] }

/-- Table lacking the gross-acreage column, grouped by the TPIN name. -/
def exNoGross : Table :=
  { header := ["TPIN", "Name", "Acres in Unit"],
    rows := [[Value.str "A", Value.str "N", Value.int 2],
             [Value.str "A", Value.str "N", Value.int 3]] }

/-- Table holding a numeric, non-string value in the `Name` column. -/
def exBadName : Table :=
  { header := ["TPIN", "Name"], rows := [[Value.str "A", Value.int 3]] }

/-- Workbook carrying both accepted sheets. -/
def exMapping : ExcelFile :=
  { sheets := [("Mapping", exOrder), ("Lead List", exNoName)] }

/-- Workbook carrying only the fallback sheet. -/
def exLead : ExcelFile :=
  { sheets := [("Lead List", exOrder)] }

/-- Workbook carrying neither accepted sheet. -/
def exNoSheet : ExcelFile :=
  { sheets := [("Summary", exOrder)] }

end ParcelAgg

namespace ParcelAgg

instance : DecidableEq (Except AggError Aggregated) := fun a b =>
  match a, b with
  | .ok x, .ok y =>
      if h : x = y then isTrue (by rw [h]) else isFalse (by intro hc; cases hc; exact h rfl)
  | .error x, .error y =>
      if h : x = y then isTrue (by rw [h]) else isFalse (by intro hc; cases hc; exact h rfl)
  | .ok _, .error _ => isFalse (by intro hc; cases hc)
  | .error _, .ok _ => isFalse (by intro hc; cases hc)

/-- Membership in the accumulator-based deduplication: an element appears in
the result exactly when it appears in the input and was not already seen. -/
theorem mem_dedupSeen (v : Value) :
    ∀ (vs seen : List Value), v ∈ dedupSeen seen vs ↔ (v ∈ vs ∧ v ∉ seen) := by
  intro vs
  induction vs with
  | nil => intro seen; simp [dedupSeen]
  | cons w vs ih =>
    intro seen
    by_cases hw : w ∈ seen
    · rw [show dedupSeen seen (w :: vs) = dedupSeen seen vs from by simp [dedupSeen, hw], ih]
      constructor
      · rintro ⟨h1, h2⟩; exact ⟨List.mem_cons_of_mem _ h1, h2⟩
      · rintro ⟨h1, h2⟩
        rcases List.mem_cons.mp h1 with rfl | h1
        · exact absurd hw h2
        · exact ⟨h1, h2⟩
    · rw [show dedupSeen seen (w :: vs) = w :: dedupSeen (w :: seen) vs from by
        simp [dedupSeen, hw]]
      constructor
      · intro h
        rcases List.mem_cons.mp h with rfl | h
        · exact ⟨List.mem_cons_self _ _, hw⟩
        · rcases (ih (w :: seen)).mp h with ⟨h1, h2⟩
          exact ⟨List.mem_cons_of_mem _ h1, fun hs => h2 (List.mem_cons_of_mem _ hs)⟩
      · rintro ⟨h1, h2⟩
        rcases List.mem_cons.mp h1 with rfl | h1
        · exact List.mem_cons_self _ _
        · by_cases hvw : v = w
          · subst hvw; exact List.mem_cons_self _ _
          · refine List.mem_cons_of_mem _ ((ih (w :: seen)).mpr ⟨h1, ?_⟩)
            intro hm
            rcases List.mem_cons.mp hm with h | h
            · exact hvw h
            · exact h2 h

/-- The deduplicated list has no duplicates. -/
theorem nodup_dedupSeen : ∀ (vs seen : List Value), (dedupSeen seen vs).Nodup := by
  intro vs
  induction vs with
  | nil => intro seen; simp [dedupSeen]
  | cons w vs ih =>
    intro seen
    by_cases hw : w ∈ seen
    · simpa [dedupSeen, hw] using ih seen
    · rw [show dedupSeen seen (w :: vs) = w :: dedupSeen (w :: seen) vs from by
        simp [dedupSeen, hw]]
      refine List.nodup_cons.mpr ⟨?_, ih (w :: seen)⟩
      intro hmem
      exact ((mem_dedupSeen w vs (w :: seen)).mp hmem).2 (List.mem_cons_self _ _)

/-- First-seen deduplication keeps exactly the elements of the input. -/
theorem mem_dedupFirst {v : Value} {vs : List Value} : v ∈ dedupFirst vs ↔ v ∈ vs := by
  rw [dedupFirst, mem_dedupSeen]
  simp

/-- First-seen deduplication yields a duplicate-free list. -/
theorem nodup_dedupFirst (vs : List Value) : (dedupFirst vs).Nodup :=
  nodup_dedupSeen vs []

/-- Deduplication preserves the set of elements. -/
theorem dedupFirst_toFinset (vs : List Value) : (dedupFirst vs).toFinset = vs.toFinset := by
  apply Finset.ext
  intro v
  simp [List.mem_toFinset, mem_dedupFirst]

/-- The length of the deduplicated list is the number of distinct elements. -/
theorem length_dedupFirst (vs : List Value) : (dedupFirst vs).length = vs.toFinset.card := by
  rw [← dedupFirst_toFinset, List.toFinset_card_of_nodup (nodup_dedupFirst vs)]

/-- The lexicographic character-list order is total. -/
theorem lexLe_total : ∀ as bs : List Char, lexLe as bs = true ∨ lexLe bs as = true := by
  intro as
  induction as with
  | nil => intro bs; left; rfl
  | cons a as ih =>
    intro bs
    cases bs with
    | nil => right; rfl
    | cons b bs =>
      rcases lt_trichotomy a b with h | h | h
      · left; simp [lexLe, h]
      · subst h
        rcases ih bs with h2 | h2
        · left; simp [lexLe, lt_irrefl, h2]
        · right; simp [lexLe, lt_irrefl, h2]
      · right; simp [lexLe, h]

/-- The lexicographic character-list order is transitive. -/
theorem lexLe_trans :
    ∀ as bs cs : List Char, lexLe as bs = true → lexLe bs cs = true → lexLe as cs = true := by
  intro as
  induction as with
  | nil => intro bs cs h1 h2; rfl
  | cons a as ih =>
    intro bs cs h1 h2
    cases bs with
    | nil => simp [lexLe] at h1
    | cons b bs =>
      cases cs with
      | nil => simp [lexLe] at h2
      | cons c cs =>
        rcases lt_trichotomy a b with hab | hab | hab
        · rcases lt_trichotomy b c with hbc | hbc | hbc
          · have hac : a < c := lt_trans hab hbc
            simp [lexLe, hac]
          · subst hbc; simp [lexLe, hab]
          · have hnbc : ¬ b < c := lt_asymm hbc
            simp [lexLe, hnbc, hbc] at h2
        · subst hab
          rcases lt_trichotomy a c with hbc | hbc | hbc
          · simp [lexLe, hbc]
          · subst hbc
            simp only [lexLe, lt_irrefl, if_false] at h1 h2 ⊢
            exact ih bs cs h1 h2
          · have hnbc : ¬ a < c := lt_asymm hbc
            simp [lexLe, hnbc, hbc] at h2
        · have hnab : ¬ a < b := lt_asymm hab
          simp [lexLe, hnab, hab] at h1

end ParcelAgg

namespace ParcelAgg

/-- A monadic map succeeds exactly when every element does, with the results
matched pointwise. -/
theorem mapME_eq_ok_iff {α β ε : Type} {f : α → Except ε β} :
    ∀ {l : List α} {ys : List β},
      mapME f l = .ok ys ↔ List.Forall₂ (fun x y => f x = .ok y) l ys := by
  intro l
  induction l with
  | nil =>
    intro ys
    constructor
    · intro h
      simp only [mapME] at h
      injection h with h
      subst h
      exact List.Forall₂.nil
    · intro h; cases h; rfl
  | cons x xs ih =>
    intro ys
    constructor
    · intro h
      simp only [mapME] at h
      cases hf : f x with
      | error e => rw [hf] at h; cases h
      | ok y =>
        rw [hf] at h
        cases hm : mapME f xs with
        | error e => rw [hm] at h; cases h
        | ok ys2 =>
          rw [hm] at h
          injection h with h
          subst h
          exact List.Forall₂.cons hf (ih.mp hm)
    · intro h
      cases h with
      | cons hxy hrest =>
        simp only [mapME]
        rw [hxy, ih.mpr hrest]

/-- A successful monadic map preserves the length. -/
theorem mapME_ok_length {α β ε : Type} {f : α → Except ε β} {l : List α} {ys : List β}
    (h : mapME f l = .ok ys) : ys.length = l.length :=
  (mapME_eq_ok_iff.mp h).length_eq.symm

/-- Every input element of a successful monadic map contributes its result. -/
theorem mapME_mem_of_ok {α β ε : Type} {f : α → Except ε β} :
    ∀ {l : List α} {ys : List β}, mapME f l = .ok ys →
      ∀ x ∈ l, ∃ y ∈ ys, f x = .ok y := by
  intro l
  induction l with
  | nil => intro ys _ x hx; cases hx
  | cons z zs ih =>
    intro ys h x hx
    have h2 := mapME_eq_ok_iff.mp h
    cases h2 with
    | cons hz hrest =>
      rcases List.mem_cons.mp hx with rfl | hx2
      · exact ⟨_, List.mem_cons_self _ _, hz⟩
      · rcases ih (mapME_eq_ok_iff.mpr hrest) x hx2 with ⟨y, hy, hfy⟩
        exact ⟨y, List.mem_cons_of_mem _ hy, hfy⟩

/-- A monadic map over elements that all succeed succeeds. -/
theorem mapME_ok_of_forall {α β ε : Type} {f : α → Except ε β} :
    ∀ {l : List α}, (∀ x ∈ l, ∃ y, f x = .ok y) → ∃ ys, mapME f l = .ok ys := by
  intro l
  induction l with
  | nil => intro _; exact ⟨[], rfl⟩
  | cons z zs ih =>
    intro h
    rcases h z (List.mem_cons_self _ _) with ⟨y, hy⟩
    rcases ih (fun x hx => h x (List.mem_cons_of_mem _ hx)) with ⟨ys, hys⟩
    refine ⟨y :: ys, ?_⟩
    simp only [mapME, hy, hys]

/-- A monadic map containing a failing element fails. -/
theorem mapME_error_of_mem {α β ε : Type} {f : α → Except ε β} {e : ε} :
    ∀ {l : List α} {x : α}, x ∈ l → f x = .error e →
      ∃ e2, mapME f l = .error e2 := by
  intro l
  induction l with
  | nil => intro x hx; cases hx
  | cons z zs ih =>
    intro x hx hfx
    cases hf : f z with
    | error e0 => exact ⟨e0, by simp only [mapME, hf]⟩
    | ok y =>
      rcases List.mem_cons.mp hx with rfl | hx2
      · rw [hfx] at hf; cases hf
      · rcases ih hx2 hfx with ⟨e2, he2⟩
        exact ⟨e2, by simp only [mapME, hf, he2]⟩

/-- The column index is found exactly for present column names. -/
theorem colIdx_eq_none_iff : ∀ (cols : List String) (c : String),
    colIdx cols c = none ↔ c ∉ cols := by
  intro cols
  induction cols with
  | nil => intro c; simp [colIdx]
  | cons c0 rest ih =>
    intro c
    by_cases h : c0 = c
    · subst h; simp [colIdx]
    · rw [colIdx, if_neg h]
      cases hr : colIdx rest c with
      | none =>
        constructor
        · intro _ hmem
          rcases List.mem_cons.mp hmem with h1 | h1
          · exact h h1.symm
          · exact (ih c).mp hr h1
        · intro _; rfl
      | some i =>
        constructor
        · intro hcon; cases hcon
        · intro hcon
          exfalso
          apply hcon
          apply List.mem_cons_of_mem
          by_contra hmem
          rw [(ih c).mpr hmem] at hr
          cases hr

/-- A present column name has an index within the header. -/
theorem colIdx_mem_some : ∀ (cols : List String) (c : String), c ∈ cols →
    ∃ i, colIdx cols c = some i ∧ i < cols.length := by
  intro cols
  induction cols with
  | nil => intro c hc; cases hc
  | cons c0 rest ih =>
    intro c hc
    by_cases h : c0 = c
    · exact ⟨0, by simp [colIdx, h], by simp⟩
    · rcases List.mem_cons.mp hc with rfl | hc2
      · exact absurd rfl h
      · rcases ih c hc2 with ⟨i, hi, hlt⟩
        refine ⟨i + 1, ?_, ?_⟩
        · simp [colIdx, h, hi]
        · simpa using Nat.succ_lt_succ hlt

/-- The found column index is within the header. -/
theorem colIdx_lt : ∀ (cols : List String) (c : String) (i : Nat),
    colIdx cols c = some i → i < cols.length := by
  intro cols
  induction cols with
  | nil => intro c i h; cases h
  | cons c0 rest ih =>
    intro c i h
    by_cases hc : c0 = c
    · rw [colIdx, if_pos hc] at h
      injection h with h
      subst h
      simp
    · rw [colIdx, if_neg hc] at h
      cases hr : colIdx rest c with
      | none => rw [hr] at h; cases h
      | some j =>
        rw [hr] at h
        injection h with h
        subst h
        simpa using Nat.succ_lt_succ (ih c j hr)

/-- Appending extra columns does not move an existing column. -/
theorem colIdx_append_of_mem : ∀ (cols extra : List String) (c : String), c ∈ cols →
    colIdx (cols ++ extra) c = colIdx cols c := by
  intro cols extra
  induction cols with
  | nil => intro c hc; cases hc
  | cons c0 rest ih =>
    intro c hc
    by_cases h : c0 = c
    · simp [colIdx, h]
    · rcases List.mem_cons.mp hc with rfl | hc2
      · exact absurd rfl h
      · simp only [List.cons_append, colIdx, if_neg h]
        show Option.map (fun x => x + 1) (colIdx (rest ++ extra) c)
          = Option.map (fun x => x + 1) (colIdx rest c)
        rw [ih c hc2]

end ParcelAgg

namespace ParcelAgg

/-- The group-key order is total. -/
theorem valueLeB_total (a b : Value) : Value.leB a b = true ∨ Value.leB b a = true := by
  cases a <;> cases b <;>
    simp only [Value.leB, Value.rank, decide_eq_true_eq] <;>
    first
      | omega
      | exact Int.le_total _ _
      | exact lexLe_total _ _

instance : IsTotal Value Value.le := ⟨fun a b => valueLeB_total a b⟩

/-- The group-key order is transitive. -/
theorem valueLeB_trans (a b c : Value) (h1 : Value.leB a b = true)
    (h2 : Value.leB b c = true) : Value.leB a c = true := by
  cases a <;> cases b <;> cases c <;>
    simp only [Value.leB, Value.rank, decide_eq_true_eq] at h1 h2 ⊢ <;>
    first
      | omega
      | exact Int.le_trans h1 h2
      | exact lexLe_trans _ _ _ h1 h2

instance : IsTrans Value Value.le := ⟨fun a b c => valueLeB_trans a b c⟩

/-- A column already present is left untouched by `ensureColumn`. -/
theorem ensureColumn_of_mem {t : Table} {c : String} (h : c ∈ t.header) :
    ensureColumn t c = t := by
  simp [ensureColumn, h]

/-- Header of `ensureColumn`: unchanged when present, appended when absent. -/
theorem ensureColumn_header (t : Table) (c : String) :
    (ensureColumn t c).header = if c ∈ t.header then t.header else t.header ++ [c] := by
  by_cases h : c ∈ t.header <;> simp [ensureColumn, h]

/-- Existing column names survive `ensureColumn`. -/
theorem mem_ensureColumn_header {t : Table} {c2 : String} (c : String) (h : c2 ∈ t.header) :
    c2 ∈ (ensureColumn t c).header := by
  rw [ensureColumn_header]
  split
  · exact h
  · exact List.mem_append_left _ h

/-- The inserted column name is present after `ensureColumn`. -/
theorem self_mem_ensureColumn_header (t : Table) (c : String) :
    c ∈ (ensureColumn t c).header := by
  rw [ensureColumn_header]
  split
  · assumption
  · exact List.mem_append_right _ (List.mem_singleton.mpr rfl)

/-- Inserting a default column keeps the table rectangular. -/
theorem ensureColumn_rect {t : Table} (c : String) (hR : t.Rect) : (ensureColumn t c).Rect := by
  by_cases h : c ∈ t.header
  · rw [ensureColumn_of_mem h]; exact hR
  · intro r hr
    simp only [ensureColumn, if_neg h, List.mem_map] at hr
    obtain ⟨r0, hr0, rfl⟩ := hr
    simp only [ensureColumn, if_neg h, List.length_append, List.length_singleton]
    rw [hR r0 hr0]

/-- Reading a cell of a row extended on the right, within the original width. -/
theorem getD_append_single {r : List Value} {i : Nat} (v : Value) (hi : i < r.length) :
    (r ++ [v]).getD i Value.null = r.getD i Value.null :=
  List.getD_append _ _ _ _ hi

/-- Inserting a default column does not change a column already present. -/
theorem colValues_ensureColumn {t : Table} {c2 : String} (c : String) (hR : t.Rect)
    (hc2 : c2 ∈ t.header) : (ensureColumn t c).colValues c2 = t.colValues c2 := by
  by_cases h : c ∈ t.header
  · rw [ensureColumn_of_mem h]
  · obtain ⟨i, hi, hilt⟩ := colIdx_mem_some t.header c2 hc2
    simp only [Table.colValues, ensureColumn, if_neg h]
    rw [colIdx_append_of_mem _ _ _ hc2, hi]
    show List.map (fun r => r.getD i Value.null) (List.map (fun r => r ++ [Value.str ""]) t.rows)
      = List.map (fun r => r.getD i Value.null) t.rows
    rw [List.map_map]
    apply List.map_congr_left
    intro r hr
    exact getD_append_single _ (by rw [hR r hr]; exact hilt)

/-- Inserting a default column does not change the rows of any group (beyond the appended
cell), so the values of a present column within a group are unchanged. -/
theorem groupColValues_ensureColumn {t : Table} {g c2 : String} (c : String) (k : Value)
    (hR : t.Rect) (hg : g ∈ t.header) (hc2 : c2 ∈ t.header) :
    (ensureColumn t c).groupColValues g c2 k = t.groupColValues g c2 k := by
  by_cases h : c ∈ t.header
  · rw [ensureColumn_of_mem h]
  · obtain ⟨gi, hgi, hgilt⟩ := colIdx_mem_some t.header g hg
    obtain ⟨ci, hci, hcilt⟩ := colIdx_mem_some t.header c2 hc2
    simp only [Table.groupColValues, Table.groupRows, ensureColumn, if_neg h]
    rw [colIdx_append_of_mem _ _ _ hc2, colIdx_append_of_mem _ _ _ hg, hgi, hci]
    show List.map (fun r => r.getD ci Value.null)
        (List.filter (fun r => r.getD gi Value.null == k)
          (List.map (fun r => r ++ [Value.str ""]) t.rows))
      = List.map (fun r => r.getD ci Value.null)
          (List.filter (fun r => r.getD gi Value.null == k) t.rows)
    rw [List.filter_map, List.map_map]
    have hfil : t.rows.filter
        ((fun r => r.getD gi Value.null == k) ∘ fun r => r ++ [Value.str ""])
        = t.rows.filter (fun r => r.getD gi Value.null == k) := by
      apply List.filter_congr
      intro r hr
      simp only [Function.comp]
      rw [getD_append_single _ (by rw [hR r hr]; exact hgilt)]
    rw [hfil]
    apply List.map_congr_left
    intro r hr
    have hrow : r ∈ t.rows := (List.mem_filter.mp hr).1
    simp only [Function.comp]
    exact getD_append_single _ (by rw [hR r hrow]; exact hcilt)

end ParcelAgg

namespace ParcelAgg

/-- Defaulting the acreage columns keeps the table rectangular. -/
theorem withDefaults_rect {t : Table} (hR : t.Rect) : (withDefaults t).Rect :=
  ensureColumn_rect _ (ensureColumn_rect _ hR)

/-- Existing column names survive the defaulting of the acreage columns. -/
theorem mem_withDefaults_header {t : Table} {c2 : String} (h : c2 ∈ t.header) :
    c2 ∈ (withDefaults t).header :=
  mem_ensureColumn_header _ (mem_ensureColumn_header _ h)

/-- The acreage-unit column is always present after defaulting. -/
theorem aiu_mem_withDefaults (t : Table) : "Acres in Unit" ∈ (withDefaults t).header :=
  mem_ensureColumn_header _ (self_mem_ensureColumn_header _ _)

/-- The gross-acreage column is always present after defaulting. -/
theorem ga_mem_withDefaults (t : Table) : "Gross acres" ∈ (withDefaults t).header :=
  self_mem_ensureColumn_header _ _

/-- Defaulting does not change the values of a column already present. -/
theorem colValues_withDefaults {t : Table} {c2 : String} (hR : t.Rect)
    (hc2 : c2 ∈ t.header) : (withDefaults t).colValues c2 = t.colValues c2 := by
  rw [withDefaults]
  rw [colValues_ensureColumn _ (ensureColumn_rect _ hR) (mem_ensureColumn_header _ hc2)]
  exact colValues_ensureColumn _ hR hc2

/-- Defaulting does not change the values of a present column within a group. -/
theorem groupColValues_withDefaults {t : Table} {g c2 : String} (k : Value) (hR : t.Rect)
    (hg : g ∈ t.header) (hc2 : c2 ∈ t.header) :
    (withDefaults t).groupColValues g c2 k = t.groupColValues g c2 k := by
  rw [withDefaults]
  rw [groupColValues_ensureColumn _ k (ensureColumn_rect _ hR)
    (mem_ensureColumn_header _ hg) (mem_ensureColumn_header _ hc2)]
  exact groupColValues_ensureColumn _ k hR hg hc2

/-- Header stripping does not change the rows. -/
theorem stripHeaders_rows (t : Table) : (stripHeaders t).rows = t.rows := rfl

/-- Header stripping keeps the table rectangular. -/
theorem stripHeaders_rect {t : Table} (hR : t.Rect) : (stripHeaders t).Rect := by
  intro r hr
  rw [stripHeaders, List.length_map]
  exact hR r hr

/-- The output key list is a permutation of the distinct input keys. -/
theorem sortedKeys_perm (t : Table) (g : String) :
    (sortedKeys t g).Perm (dedupFirst (t.colValues g)) :=
  List.perm_insertionSort _ _

/-- A value occurs among the sorted group keys exactly when it occurs in the
grouping column. -/
theorem mem_sortedKeys {t : Table} {g : String} {k : Value} :
    k ∈ sortedKeys t g ↔ k ∈ t.colValues g := by
  rw [(sortedKeys_perm t g).mem_iff]
  exact mem_dedupFirst

/-- The sorted group keys are sorted under the group-key order. -/
theorem sortedKeys_sorted (t : Table) (g : String) :
    List.Sorted Value.le (sortedKeys t g) :=
  List.sorted_insertionSort _ _

/-- There are as many sorted group keys as distinct grouping values. -/
theorem sortedKeys_length (t : Table) (g : String) :
    (sortedKeys t g).length = (t.colValues g).toFinset.card := by
  rw [(sortedKeys_perm t g).length_eq]
  exact length_dedupFirst _

/-- Membership in `uniqueNonNull`: the non-null values of the input. -/
theorem mem_uniqueNonNull {v : Value} {vs : List Value} :
    v ∈ uniqueNonNull vs ↔ v ∈ vs ∧ v.isNull = false := by
  rw [uniqueNonNull, mem_dedupFirst, List.mem_filter]
  simp

/-- The payload of a successful name join is the semicolon join of the
distinct non-null values. -/
theorem joinNames_ok_val {vs : List Value} {s : String} (h : joinNames vs = .ok s) :
    s = String.intercalate ";" ((uniqueNonNull vs).map Value.toPyStr) := by
  rw [joinNames] at h
  split at h
  · injection h with h; exact h.symm
  · cases h

/-- The name join succeeds on a series whose values are all null or strings. -/
theorem joinNames_ok_of_all {vs : List Value} (h : ∀ v ∈ vs, v.isNull = true ∨ v.isStr = true) :
    joinNames vs = .ok (String.intercalate ";" ((uniqueNonNull vs).map Value.toPyStr)) := by
  rw [joinNames]
  rw [if_pos]
  apply List.all_eq_true.mpr
  intro v hv
  rcases mem_uniqueNonNull.mp hv with ⟨hvs, hnn⟩
  rcases h v hvs with hn | hs
  · rw [hn] at hnn; cases hnn
  · exact hs

/-- The name join fails when some non-null value is not a string. -/
theorem joinNames_error_of_bad {vs : List Value} {v : Value} (hv : v ∈ vs)
    (hnn : v.isNull = false) (hns : v.isStr = false) :
    ∃ e, joinNames vs = .error e := by
  rw [joinNames]
  rw [if_neg]
  · exact ⟨_, rfl⟩
  · intro hall
    have := List.all_eq_true.mp hall v (mem_uniqueNonNull.mpr ⟨hv, hnn⟩)
    rw [hns] at this
    cases this

/-- Structure of a successful aggregation row: the key followed by the three
joined strings. -/
theorem aggRow_ok_elim {t : Table} {g : String} {k : Value} {r : List Value}
    (h : aggRow t g k = .ok r) :
    r = [k,
      Value.str (String.intercalate ";" ((uniqueNonNull (t.groupColValues g "Name" k)).map Value.toPyStr)),
      Value.str (joinComma (t.groupColValues g "Acres in Unit" k)),
      Value.str (joinComma (t.groupColValues g "Gross acres" k))] := by
  rw [aggRow] at h
  cases hj : joinNames (t.groupColValues g "Name" k) with
  | error e => rw [hj] at h; cases h
  | ok names =>
    rw [hj] at h
    injection h with h
    rw [← h, joinNames_ok_val hj]

/-- The aggregation row succeeds when the name series of the group holds only
nulls and strings. -/
theorem aggRow_ok_of_names {t : Table} {g : String} {k : Value}
    (h : ∀ v ∈ t.groupColValues g "Name" k, v.isNull = true ∨ v.isStr = true) :
    ∃ r, aggRow t g k = .ok r := by
  rw [aggRow]
  rw [joinNames_ok_of_all h]
  exact ⟨_, rfl⟩

/-- The aggregation row fails when the name series of the group holds a
non-null non-string value. -/
theorem aggRow_error_of_bad {t : Table} {g : String} {k v : Value}
    (hv : v ∈ t.groupColValues g "Name" k) (hnn : v.isNull = false)
    (hns : v.isStr = false) : ∃ e, aggRow t g k = .error e := by
  rcases joinNames_error_of_bad hv hnn hns with ⟨e, he⟩
  rw [aggRow, he]
  exact ⟨e, rfl⟩

/-- A resolved grouping column is one of the two accepted names and is present
in the header. -/
theorem resolveGroupColumn_some_cases {t : Table} {g : String}
    (h : resolveGroupColumn t = some g) :
    (g = "Tax Map Parcel ID" ∨ g = "TPIN") ∧ g ∈ t.header := by
  rw [resolveGroupColumn] at h
  split at h
  · injection h with h
    subst h
    exact ⟨Or.inl rfl, by assumption⟩
  · split at h
    · injection h with h
      subst h
      exact ⟨Or.inr rfl, by assumption⟩
    · cases h

/-- The grouping-column resolution fails exactly when neither accepted name is
present. -/
theorem resolveGroupColumn_eq_none_iff {t : Table} :
    resolveGroupColumn t = none ↔
      "Tax Map Parcel ID" ∉ t.header ∧ "TPIN" ∉ t.header := by
  rw [resolveGroupColumn]
  by_cases h1 : "Tax Map Parcel ID" ∈ t.header
  · simp [h1]
  · by_cases h2 : "TPIN" ∈ t.header <;> simp [h1, h2]

end ParcelAgg

namespace ParcelAgg

/-- Anatomy of a successful aggregation: the grouping column resolved, the
name column was present, the per-group rows were all built, and the output
carries the renamed header and the warnings. -/
theorem aggregateCore_ok_elim {data : Table} {a : Aggregated}
    (h : aggregateCore data = .ok a) :
    ∃ g, resolveGroupColumn data = some g ∧
      "Name" ∈ (withDefaults data).header ∧
      mapME (aggRow (withDefaults data) g) (sortedKeys (withDefaults data) g)
        = .ok a.table.rows ∧
      a.table.header = [g, "Names", "Acres in Unit", "Gross Acres"] ∧
      a.warnings = aggWarnings data := by
  cases hg : resolveGroupColumn data with
  | none => rw [aggregateCore, hg] at h; cases h
  | some g =>
    simp only [aggregateCore, hg] at h
    by_cases hn : "Name" ∈ (withDefaults data).header
    · rw [if_pos hn] at h
      cases hm : mapME (aggRow (withDefaults data) g) (sortedKeys (withDefaults data) g) with
      | error e => rw [hm] at h; cases h
      | ok rows =>
        rw [hm] at h
        injection h with h
        subst h
        exact ⟨g, rfl, hn, hm, rfl, rfl⟩
    · rw [if_neg hn] at h
      cases h

/-- A missing name column after defaulting makes the aggregation fail with the
named key error, whatever the rows hold. -/
theorem aggregateCore_keyError {data : Table} {g : String}
    (hg : resolveGroupColumn data = some g)
    (hn : "Name" ∉ (withDefaults data).header) :
    aggregateCore data = .error (.keyError "Name") := by
  simp only [aggregateCore, hg]
  rw [if_neg hn]

/-- A group with a non-null non-string name value makes the aggregation fail
with the type error. -/
theorem aggregateCore_typeError {data : Table} {g : String} {k v : Value}
    (hg : resolveGroupColumn data = some g)
    (hn : "Name" ∈ (withDefaults data).header)
    (hk : k ∈ sortedKeys (withDefaults data) g)
    (hv : v ∈ (withDefaults data).groupColValues g "Name" k)
    (hnn : v.isNull = false) (hns : v.isStr = false) :
    aggregateCore data = .error .typeError := by
  rcases aggRow_error_of_bad hv hnn hns with ⟨e, he⟩
  rcases mapME_error_of_mem hk he with ⟨e2, he2⟩
  simp only [aggregateCore, hg]
  rw [if_pos hn, he2]

/-- The aggregation succeeds when every group's name series holds only nulls
and strings, producing the renamed header, the warnings, and one row per
sorted group key. -/
theorem aggregateCore_ok_intro {data : Table} {g : String}
    (hg : resolveGroupColumn data = some g)
    (hn : "Name" ∈ (withDefaults data).header)
    (hnames : ∀ k ∈ sortedKeys (withDefaults data) g,
      ∀ v ∈ (withDefaults data).groupColValues g "Name" k,
        v.isNull = true ∨ v.isStr = true) :
    ∃ rows, aggregateCore data = .ok
      { warnings := aggWarnings data,
        table := { header := [g, "Names", "Acres in Unit", "Gross Acres"],
                   rows := rows } } := by
  have hall : ∀ k ∈ sortedKeys (withDefaults data) g,
      ∃ r, aggRow (withDefaults data) g k = .ok r :=
    fun k hk => aggRow_ok_of_names (hnames k hk)
  rcases mapME_ok_of_forall hall with ⟨rows, hrows⟩
  refine ⟨rows, ?_⟩
  simp only [aggregateCore, hg]
  rw [if_pos hn, hrows]

end ParcelAgg

namespace ParcelAgg

/-- The first cell of every successfully aggregated row is its group key. -/
theorem rows_map_key_of_forall₂ {d : Table} {g : String} :
    ∀ {keys : List Value} {rows : List (List Value)},
      List.Forall₂ (fun k r => aggRow d g k = .ok r) keys rows →
      rows.map (fun r => r.getD 0 Value.null) = keys := by
  intro keys rows h
  induction h with
  | nil => rfl
  | cons hkr hrest ih =>
    rw [List.map_cons, ih, aggRow_ok_elim hkr]
    rfl

/-- Every row of a successful monadic map is the image of an input element. -/
theorem mapME_mem_of_ok_right {α β ε : Type} {f : α → Except ε β} :
    ∀ {l : List α} {ys : List β}, mapME f l = .ok ys →
      ∀ y ∈ ys, ∃ x ∈ l, f x = .ok y := by
  intro l
  induction l with
  | nil =>
    intro ys h y hy
    simp only [mapME] at h
    injection h with h
    subst h
    cases hy
  | cons z zs ih =>
    intro ys h y hy
    have h2 := mapME_eq_ok_iff.mp h
    cases h2 with
    | cons hz hrest =>
      rcases List.mem_cons.mp hy with rfl | hy2
      · exact ⟨z, List.mem_cons_self _ _, hz⟩
      · rcases ih (mapME_eq_ok_iff.mpr hrest) y hy2 with ⟨x, hx, hfx⟩
        exact ⟨x, List.mem_cons_of_mem _ hx, hfx⟩

/-- Every value of a column belongs to the group of the key in its row. -/
theorem exists_group_of_colValue {t : Table} {c g : String} {v : Value}
    (hg : g ∈ t.header) (hv : v ∈ t.colValues c) :
    ∃ k, k ∈ t.colValues g ∧ v ∈ t.groupColValues g c k := by
  rw [Table.colValues] at hv
  cases hc : colIdx t.header c with
  | none => rw [hc] at hv; cases hv
  | some ci =>
    rw [hc] at hv
    rcases List.mem_map.mp hv with ⟨r, hr, rfl⟩
    obtain ⟨gi, hgi, _⟩ := colIdx_mem_some t.header g hg
    refine ⟨r.getD gi Value.null, ?_, ?_⟩
    · rw [Table.colValues, hgi]
      exact List.mem_map.mpr ⟨r, hr, rfl⟩
    · rw [Table.groupColValues, hc, Table.groupRows, hgi]
      apply List.mem_map.mpr
      refine ⟨r, ?_, rfl⟩
      apply List.mem_filter.mpr
      refine ⟨hr, ?_⟩
      simp

/-- Every value of a group series is a value of the underlying column. -/
theorem colValue_of_groupColValue {t : Table} {g c : String} {k v : Value}
    (hv : v ∈ t.groupColValues g c k) : v ∈ t.colValues c := by
  rw [Table.groupColValues] at hv
  cases hc : colIdx t.header c with
  | none => rw [hc] at hv; cases hv
  | some ci =>
    rw [hc] at hv
    rcases List.mem_map.mp hv with ⟨r, hr, rfl⟩
    have hrow : r ∈ t.rows := by
      rw [Table.groupRows] at hr
      cases hgi : colIdx t.header g with
      | none => rw [hgi] at hr; cases hr
      | some gi => rw [hgi] at hr; exact (List.mem_filter.mp hr).1
    rw [Table.colValues, hc]
    exact List.mem_map.mpr ⟨r, hrow, rfl⟩

/-- The index of a freshly appended column is the original width. -/
theorem colIdx_append_self : ∀ (cols : List String) (c : String), c ∉ cols →
    colIdx (cols ++ [c]) c = some cols.length := by
  intro cols
  induction cols with
  | nil => intro c _; simp [colIdx]
  | cons c0 rest ih =>
    intro c hc
    have h0 : c0 ≠ c := fun h => hc (h ▸ List.mem_cons_self _ _)
    have hcr : c ∉ rest := fun h => hc (List.mem_cons_of_mem _ h)
    simp only [List.cons_append, colIdx, if_neg h0]
    show Option.map (fun x => x + 1) (colIdx (rest ++ [c]) c) = some (rest.length + 1)
    rw [ih c hcr]
    rfl

/-- Reading the cell appended at the end of a row. -/
theorem getD_append_length (r : List Value) (v : Value) :
    (r ++ [v]).getD r.length Value.null = v := by
  induction r with
  | nil => rfl
  | cons x xs ih => simp only [List.cons_append, List.length_cons, List.getD_cons_succ]; exact ih

/-- An absent column name distinct from the inserted one stays absent. -/
theorem not_mem_ensureColumn_header {t : Table} {c2 : String} (c : String)
    (h2 : c2 ∉ t.header) (hne : c2 ≠ c) : c2 ∉ (ensureColumn t c).header := by
  rw [ensureColumn_header]
  split
  · exact h2
  · intro hmem
    rcases List.mem_append.mp hmem with h | h
    · exact h2 h
    · exact hne (List.mem_singleton.mp h)

/-- Every value of the series of a freshly inserted column is the empty
string. -/
theorem groupColValues_appended_col {t : Table} {c g : String} (k : Value) (hR : t.Rect)
    (hc : c ∉ t.header) :
    ∀ v ∈ (ensureColumn t c).groupColValues g c k, v = Value.str "" := by
  intro v hv
  rw [Table.groupColValues] at hv
  have hhead : (ensureColumn t c).header = t.header ++ [c] := by
    rw [ensureColumn_header, if_neg hc]
  rw [hhead, colIdx_append_self t.header c hc] at hv
  rcases List.mem_map.mp hv with ⟨r, hr, rfl⟩
  have hrows : r ∈ (ensureColumn t c).rows := by
    rw [Table.groupRows] at hr
    cases hgi : colIdx (ensureColumn t c).header g with
    | none => rw [hgi] at hr; cases hr
    | some gi => rw [hgi] at hr; exact (List.mem_filter.mp hr).1
  have : (ensureColumn t c).rows = t.rows.map (fun r => r ++ [Value.str ""]) := by
    rw [ensureColumn, if_neg hc]
  rw [this] at hrows
  rcases List.mem_map.mp hrows with ⟨r0, hr0, rfl⟩
  rw [← hR r0 hr0]
  exact getD_append_length r0 (Value.str "")

/-- A series of all-null values has no distinct non-null value. -/
theorem uniqueNonNull_eq_nil {vs : List Value} (h : vs.all Value.isNull = true) :
    uniqueNonNull vs = [] := by
  rw [uniqueNonNull]
  have hf : vs.filter (fun v => !v.isNull) = [] := by
    apply List.filter_eq_nil_iff.mpr
    intro v hv
    rw [List.all_eq_true.mp h v hv]
    simp
  rw [hf]
  rfl

/-- The comma join of an all-null series is the empty string. -/
theorem joinComma_all_null {vs : List Value} (h : vs.all Value.isNull = true) :
    joinComma vs = "" := by
  rw [joinComma, uniqueNonNull_eq_nil h]
  rfl

/-- A duplicate-free list of copies of one value is empty or that singleton. -/
theorem nodup_const_cases {l : List Value} {cv : Value} (hn : l.Nodup)
    (h : ∀ x ∈ l, x = cv) : l = [] ∨ l = [cv] := by
  cases l with
  | nil => exact Or.inl rfl
  | cons x xs =>
    right
    have hx : x = cv := h x (List.mem_cons_self _ _)
    subst hx
    cases xs with
    | nil => rfl
    | cons y ys =>
      exfalso
      have hy : y = x := h y (List.mem_cons_of_mem _ (List.mem_cons_self _ _))
      subst hy
      exact (List.nodup_cons.mp hn).1 (List.mem_cons_self _ _)

/-- The comma join of a series of empty-string values is the empty string. -/
theorem joinComma_all_empty {vs : List Value} (h : ∀ v ∈ vs, v = Value.str "") :
    joinComma vs = "" := by
  have hall : ∀ x ∈ uniqueNonNull vs, x = Value.str "" :=
    fun x hx => h x (mem_uniqueNonNull.mp hx).1
  have hnd : (uniqueNonNull vs).Nodup := nodup_dedupFirst _
  rw [joinComma]
  rcases nodup_const_cases hnd hall with he | he <;> rw [he] <;> rfl

/-- A missing grouping column fails with the named configuration error. -/
theorem aggregateCore_missingGroup {data : Table}
    (h : resolveGroupColumn data = none) :
    aggregateCore data = .error .missingGroupColumn := by
  rw [aggregateCore, h]

end ParcelAgg

namespace ParcelAgg

/-- C1: for every input table and every group, the output `Names` field is
exactly the distinct non-null `Name` values of that group, deduplicated in
first-seen order and joined with a semicolon, and the two acreage fields get
the same treatment joined with a comma.  The aggregated row of group key `k`
carries the semicolon join of the distinct non-null name values of the input
group and the comma joins of the two acreage series of the defaulted table. -/
theorem names_field_is_distinct_nonnull_join (t : Table) (g : String) (a : Aggregated)
    (k : Value) (hR : t.Rect)
    (hg : resolveGroupColumn (stripHeaders t) = some g)
    (hname : "Name" ∈ (stripHeaders t).header)
    (hok : aggregateTable t = .ok a)
    (hk : k ∈ (stripHeaders t).colValues g) :
    [k,
     Value.str (String.intercalate ";"
       ((uniqueNonNull ((stripHeaders t).groupColValues g "Name" k)).map Value.toPyStr)),
     Value.str (joinComma ((withDefaults (stripHeaders t)).groupColValues g "Acres in Unit" k)),
     Value.str (joinComma ((withDefaults (stripHeaders t)).groupColValues g "Gross acres" k))]
      ∈ a.table.rows := by
  rcases aggregateCore_ok_elim hok with ⟨g2, hg2, hn, hm, hh, hw⟩
  rw [hg] at hg2
  injection hg2 with hg2
  subst hg2
  have hRd := stripHeaders_rect hR
  have hgmem : g ∈ (stripHeaders t).header := (resolveGroupColumn_some_cases hg).2
  have hkd : k ∈ (withDefaults (stripHeaders t)).colValues g := by
    rw [colValues_withDefaults hRd hgmem]
    exact hk
  have hks : k ∈ sortedKeys (withDefaults (stripHeaders t)) g := mem_sortedKeys.mpr hkd
  rcases mapME_mem_of_ok hm k hks with ⟨r, hr, hrk⟩
  have hstruct := aggRow_ok_elim hrk
  rw [groupColValues_withDefaults k hRd hgmem hname] at hstruct
  rw [← hstruct]
  exact hr

/-- Witness for C1 at a concrete table: the row of group B of `exTable`. -/
theorem names_field_is_distinct_nonnull_join_witness :
    [Value.str "B",
     Value.str (String.intercalate ";"
       ((uniqueNonNull ((stripHeaders exTable).groupColValues "Tax Map Parcel ID" "Name"
         (Value.str "B"))).map Value.toPyStr)),
     Value.str (joinComma ((withDefaults (stripHeaders exTable)).groupColValues
       "Tax Map Parcel ID" "Acres in Unit" (Value.str "B"))),
     Value.str (joinComma ((withDefaults (stripHeaders exTable)).groupColValues
       "Tax Map Parcel ID" "Gross acres" (Value.str "B")))]
      ∈ exAgg.table.rows :=
  names_field_is_distinct_nonnull_join exTable "Tax Map Parcel ID" exAgg (Value.str "B")
    (by decide) (by decide) (by decide) (by decide) (by decide)

/-- C2: the aggregated output has exactly one row per distinct value of the
grouping column, the null key counting as one distinct value. -/
theorem output_row_count_eq_distinct_keys (t : Table) (g : String) (a : Aggregated)
    (hR : t.Rect)
    (hg : resolveGroupColumn (stripHeaders t) = some g)
    (hok : aggregateTable t = .ok a) :
    a.table.rows.length = ((stripHeaders t).colValues g).toFinset.card := by
  rcases aggregateCore_ok_elim hok with ⟨g2, hg2, hn, hm, hh, hw⟩
  rw [hg] at hg2
  injection hg2 with hg2
  subst hg2
  have hRd := stripHeaders_rect hR
  have hgmem : g ∈ (stripHeaders t).header := (resolveGroupColumn_some_cases hg).2
  rw [mapME_ok_length hm, sortedKeys_length, colValues_withDefaults hRd hgmem]

/-- Witness for C2 at a concrete table: `exTable` has three distinct keys
(including the null one) and its aggregation has three rows. -/
theorem output_row_count_eq_distinct_keys_witness :
    exAgg.table.rows.length
      = ((stripHeaders exTable).colValues "Tax Map Parcel ID").toFinset.card :=
  output_row_count_eq_distinct_keys exTable "Tax Map Parcel ID" exAgg
    (by decide) (by decide) (by decide)

/-- C3 counterexample: the output rows do NOT follow the order of first
appearance of the keys.  In `exOrder` the key B appears before A, yet the
aggregated rows list A before B. -/
theorem output_order_not_first_appearance_cex :
    aggregateTable exOrder = Except.ok exOrderAgg ∧
    exOrderAgg.table.rows.map (fun r => r.getD 0 Value.null)
      ≠ dedupFirst (exOrder.colValues "Tax Map Parcel ID") := by
  constructor
  · decide
  · decide

/-- C3 amended: the aggregated rows appear in ascending sorted order of the
group key (numbers, then strings, the null key last) — pandas
`groupby(sort=True)` semantics — and the output keys are exactly the distinct
keys of the input. -/
theorem output_order_sorted_keys (t : Table) (g : String) (a : Aggregated)
    (hR : t.Rect)
    (hg : resolveGroupColumn (stripHeaders t) = some g)
    (hok : aggregateTable t = .ok a) :
    List.Sorted Value.le (a.table.rows.map (fun r => r.getD 0 Value.null)) ∧
    (a.table.rows.map (fun r => r.getD 0 Value.null)).Perm
      (dedupFirst ((stripHeaders t).colValues g)) := by
  rcases aggregateCore_ok_elim hok with ⟨g2, hg2, hn, hm, hh, hw⟩
  rw [hg] at hg2
  injection hg2 with hg2
  subst hg2
  have hRd := stripHeaders_rect hR
  have hgmem : g ∈ (stripHeaders t).header := (resolveGroupColumn_some_cases hg).2
  have hkeys := rows_map_key_of_forall₂ (mapME_eq_ok_iff.mp hm)
  rw [hkeys]
  constructor
  · exact sortedKeys_sorted _ _
  · have hperm := sortedKeys_perm (withDefaults (stripHeaders t)) g
    rwa [colValues_withDefaults hRd hgmem] at hperm

/-- Witness for the amended C3 at a concrete table. -/
theorem output_order_sorted_keys_witness :
    List.Sorted Value.le (exOrderAgg.table.rows.map (fun r => r.getD 0 Value.null)) ∧
    (exOrderAgg.table.rows.map (fun r => r.getD 0 Value.null)).Perm
      (dedupFirst ((stripHeaders exOrder).colValues "Tax Map Parcel ID")) :=
  output_order_sorted_keys exOrder "Tax Map Parcel ID" exOrderAgg
    (by decide) (by decide) (by decide)

end ParcelAgg

namespace ParcelAgg

/-- C4 counterexample: the claim says a missing name column is synthesized and
the aggregation does not fail, but the script only defaults the two acreage
columns; on a table without `Name` the aggregation fails with the pandas key
error raised by the `.agg` dict. -/
theorem missing_name_column_fails_cex :
    aggregateTable exNoName = Except.error (AggError.keyError "Name") := by
  decide

/-- C4 amended: only the two acreage columns are synthesized as all-empty
columns (with a non-fatal warning); when the gross-acreage column is absent
the aggregation still succeeds, the gross-acreage warning is reported, and
the output `Gross Acres` value is the empty string for every group.  A
missing `Name` column, by contrast, makes the aggregation fail. -/
theorem missing_acreage_columns_defaulted (t : Table) (g : String)
    (hR : t.Rect)
    (hg : resolveGroupColumn (stripHeaders t) = some g)
    (hname : "Name" ∈ (stripHeaders t).header)
    (hga : "Gross acres" ∉ (stripHeaders t).header)
    (hnames : ∀ v ∈ (stripHeaders t).colValues "Name",
      v.isNull = true ∨ v.isStr = true) :
    ∃ a, aggregateTable t = .ok a ∧ gaWarning ∈ a.warnings ∧
      ∀ r ∈ a.table.rows, r.getD 3 Value.null = Value.str "" := by
  have hRd := stripHeaders_rect hR
  have hgmem : g ∈ (stripHeaders t).header := (resolveGroupColumn_some_cases hg).2
  have hn : "Name" ∈ (withDefaults (stripHeaders t)).header := mem_withDefaults_header hname
  have hnames2 : ∀ k ∈ sortedKeys (withDefaults (stripHeaders t)) g,
      ∀ v ∈ (withDefaults (stripHeaders t)).groupColValues g "Name" k,
        v.isNull = true ∨ v.isStr = true := by
    intro k hk v hv
    rw [groupColValues_withDefaults k hRd hgmem hname] at hv
    exact hnames v (colValue_of_groupColValue hv)
  rcases aggregateCore_ok_intro hg hn hnames2 with ⟨rows, hok⟩
  refine ⟨_, hok, ?_, ?_⟩
  · show gaWarning ∈ aggWarnings (stripHeaders t)
    simp [aggWarnings, hga]
  · intro r hr
    rcases aggregateCore_ok_elim hok with ⟨g2, hg2, hn2, hm, hh2, hw2⟩
    rw [hg] at hg2
    injection hg2 with hg2
    subst hg2
    rcases mapME_mem_of_ok_right hm r hr with ⟨k, hk, hrk⟩
    rw [aggRow_ok_elim hrk]
    have hga1 : "Gross acres" ∉ (ensureColumn (stripHeaders t) "Acres in Unit").header :=
      not_mem_ensureColumn_header _ hga (by decide)
    have hR1 : (ensureColumn (stripHeaders t) "Acres in Unit").Rect :=
      ensureColumn_rect _ hRd
    have hvals := groupColValues_appended_col (t := ensureColumn (stripHeaders t)
      "Acres in Unit") (g := g) k hR1 hga1
    show Value.str (joinComma ((withDefaults (stripHeaders t)).groupColValues
      g "Gross acres" k)) = Value.str ""
    rw [withDefaults, joinComma_all_empty hvals]

/-- Witness for the amended C4 at a concrete table lacking `Gross acres`. -/
theorem missing_acreage_columns_defaulted_witness :
    ∃ a, aggregateTable exNoGross = Except.ok a ∧ gaWarning ∈ a.warnings ∧
      ∀ r ∈ a.table.rows, r.getD 3 Value.null = Value.str "" :=
  missing_acreage_columns_defaulted exNoGross "TPIN" (by decide) (by decide)
    (by decide) (by decide) (by decide)

/-- C5: the sheet is resolved with `Mapping` before `Lead List` and the
grouping column with the parcel-identifier name before the TPIN name; when
neither accepted sheet or neither accepted grouping column is present the
file fails with its named configuration error; and the batch loop processes
every workbook independently, so one failing workbook leaves the others
untouched. -/
theorem config_resolution_and_batch_isolation :
    (∀ xl : ExcelFile, "Mapping" ∈ xl.sheetNames → resolveSheet xl = some "Mapping") ∧
    (∀ xl : ExcelFile, "Mapping" ∉ xl.sheetNames → "Lead List" ∈ xl.sheetNames →
      resolveSheet xl = some "Lead List") ∧
    (∀ xl : ExcelFile, "Mapping" ∉ xl.sheetNames → "Lead List" ∉ xl.sheetNames →
      aggregate_data xl = .error .missingSheet) ∧
    (∀ u : Table, "Tax Map Parcel ID" ∈ u.header →
      resolveGroupColumn u = some "Tax Map Parcel ID") ∧
    (∀ u : Table, "Tax Map Parcel ID" ∉ u.header → "TPIN" ∈ u.header →
      resolveGroupColumn u = some "TPIN") ∧
    (∀ u : Table, "Tax Map Parcel ID" ∉ (stripHeaders u).header →
      "TPIN" ∉ (stripHeaders u).header →
      aggregateTable u = .error .missingGroupColumn) ∧
    (∀ pre post : List ExcelFile, ∀ bad : ExcelFile,
      processFiles (pre ++ bad :: post)
        = processFiles pre ++ aggregate_data bad :: processFiles post) := by
  refine ⟨?_, ?_, ?_, ?_, ?_, ?_, ?_⟩
  · intro xl h
    rw [resolveSheet, if_pos h]
  · intro xl h1 h2
    rw [resolveSheet, if_neg h1, if_pos h2]
  · intro xl h1 h2
    have hs : resolveSheet xl = none := by rw [resolveSheet, if_neg h1, if_neg h2]
    simp only [aggregate_data, hs]
  · intro u h
    rw [resolveGroupColumn, if_pos h]
  · intro u h1 h2
    rw [resolveGroupColumn, if_neg h1, if_pos h2]
  · intro u h1 h2
    have hs : resolveGroupColumn (stripHeaders u) = none := by
      rw [resolveGroupColumn, if_neg h1, if_neg h2]
    exact aggregateCore_missingGroup hs
  · intro pre post bad
    rw [processFiles, processFiles, processFiles, List.map_append, List.map_cons]

/-- Witness for C5 at concrete workbooks and tables. -/
theorem config_resolution_and_batch_isolation_witness :
    resolveSheet exMapping = some "Mapping" ∧
    resolveSheet exLead = some "Lead List" ∧
    aggregate_data exNoSheet = Except.error AggError.missingSheet ∧
    aggregateTable { header := ["Id"], rows := [] }
      = Except.error AggError.missingGroupColumn ∧
    processFiles ([exMapping] ++ exNoSheet :: [exLead])
      = processFiles [exMapping] ++ aggregate_data exNoSheet :: processFiles [exLead] :=
  ⟨config_resolution_and_batch_isolation.1 exMapping (by decide),
   config_resolution_and_batch_isolation.2.1 exLead (by decide) (by decide),
   config_resolution_and_batch_isolation.2.2.1 exNoSheet (by decide) (by decide),
   config_resolution_and_batch_isolation.2.2.2.2.2.1 { header := ["Id"], rows := [] }
     (by decide) (by decide),
   config_resolution_and_batch_isolation.2.2.2.2.2.2 [exMapping] [exLead] exNoSheet⟩

/-- C6: column-name matching is whitespace-insensitive — two tables whose
headers agree after trimming and whose rows agree aggregate identically,
because every header is trimmed before any column lookup. -/
theorem header_whitespace_insensitive (t1 t2 : Table)
    (hh : t1.header.map pyStrip = t2.header.map pyStrip)
    (hr : t1.rows = t2.rows) :
    aggregateTable t1 = aggregateTable t2 := by
  have hs : stripHeaders t1 = stripHeaders t2 := by
    rw [stripHeaders, stripHeaders, hh, hr]
  rw [aggregateTable, aggregateTable, hs]

/-- Witness for C6: the padded header of `exTable` aggregates exactly like
the trimmed header of `exTrimmed`. -/
theorem header_whitespace_insensitive_witness :
    exTable.header.map pyStrip = exTrimmed.header.map pyStrip ∧
    aggregateTable exTable = aggregateTable exTrimmed :=
  ⟨by decide, header_whitespace_insensitive exTable exTrimmed (by decide) rfl⟩

end ParcelAgg

namespace ParcelAgg

/-- C7 counterexample: aggregation is not structurally idempotent.
Aggregating `exTable` yields `exAgg`, but running the aggregation on that
output table does not reproduce it — the second run fails outright. -/
theorem reaggregation_not_identity_cex :
    aggregateTable exTable = Except.ok exAgg ∧
    aggregateTable exAgg.table ≠ Except.ok exAgg := by
  constructor
  · decide
  · decide

/-- C7 amended: running the aggregation on any successfully aggregated output
fails with the named key error on `Name`: the output renamed `Name` to
`Names` (and `Gross acres` to `Gross Acres`), so the `.agg` dict cannot find
its source column in the output schema. -/
theorem reaggregation_fails_with_keyerror (t : Table) (a : Aggregated)
    (hok : aggregateTable t = .ok a) :
    aggregateTable a.table = .error (.keyError "Name") := by
  rcases aggregateCore_ok_elim hok with ⟨g, hg, hn, hm, hh, hw⟩
  obtain hcase | hcase := (resolveGroupColumn_some_cases hg).1
  · subst hcase
    have hsh : (stripHeaders a.table).header
        = ["Tax Map Parcel ID", "Names", "Acres in Unit", "Gross Acres"] := by
      show a.table.header.map pyStrip = _
      rw [hh]
      decide
    have hres : resolveGroupColumn (stripHeaders a.table) = some "Tax Map Parcel ID" := by
      rw [resolveGroupColumn, hsh]
      decide
    refine aggregateCore_keyError hres ?_
    rw [withDefaults, ensureColumn_header, ensureColumn_header, hsh]
    decide
  · subst hcase
    have hsh : (stripHeaders a.table).header
        = ["TPIN", "Names", "Acres in Unit", "Gross Acres"] := by
      show a.table.header.map pyStrip = _
      rw [hh]
      decide
    have hres : resolveGroupColumn (stripHeaders a.table) = some "TPIN" := by
      rw [resolveGroupColumn, hsh]
      decide
    refine aggregateCore_keyError hres ?_
    rw [withDefaults, ensureColumn_header, ensureColumn_header, hsh]
    decide

/-- Witness for the amended C7: re-aggregating the output of `exTable`. -/
theorem reaggregation_fails_with_keyerror_witness :
    aggregateTable exAgg.table = Except.error (AggError.keyError "Name") :=
  reaggregation_fails_with_keyerror exTable exAgg (by decide)

/-- Bridge between the Boolean `contains` test the script uses for the join
validation and plain list membership. -/
theorem contains_eq_false_iff {l : List String} {a : String} :
    l.contains a = false ↔ a ∉ l := by
  constructor
  · intro h hmem
    have h2 : l.contains a = true := List.elem_iff.mpr hmem
    rw [h] at h2
    cases h2
  · intro h
    by_contra hne
    have h2 : l.contains a = true := by
      cases hc : l.contains a
      · exact absurd hc hne
      · rfl
    exact h (List.elem_iff.mp h2)

/-- C8: after the GIS join the script checks that the three aggregated field
names exist on the joined layer; when any are missing it stops with a
validation error carrying exactly the missing fields, and the export of the
joined layer is not performed. -/
theorem join_validation_reports_missing_fields (joinedFields : List String)
    (h : ∃ f ∈ requiredJoinFields, f ∉ joinedFields) :
    join_to_shapefile joinedFields
        = .validationError
            (requiredJoinFields.filter (fun f => !joinedFields.contains f)) ∧
      (∀ f, f ∈ requiredJoinFields.filter (fun f => !joinedFields.contains f) ↔
        (f ∈ requiredJoinFields ∧ f ∉ joinedFields)) ∧
      join_to_shapefile joinedFields ≠ .exported := by
  rcases h with ⟨f0, hf0, hnot⟩
  have hmem : f0 ∈ requiredJoinFields.filter (fun f => !joinedFields.contains f) := by
    apply List.mem_filter.mpr
    refine ⟨hf0, ?_⟩
    rw [Bool.not_eq_true']
    exact contains_eq_false_iff.mpr hnot
  have hne : ¬ (requiredJoinFields.filter
      (fun f => !joinedFields.contains f)).isEmpty = true := by
    intro he
    rw [List.isEmpty_iff] at he
    rw [he] at hmem
    cases hmem
  refine ⟨?_, ?_, ?_⟩
  · simp only [join_to_shapefile]
    rw [if_neg hne]
  · intro f
    rw [List.mem_filter]
    constructor
    · rintro ⟨hf, hb⟩
      rw [Bool.not_eq_true'] at hb
      exact ⟨hf, contains_eq_false_iff.mp hb⟩
    · rintro ⟨hf, hnf⟩
      refine ⟨hf, ?_⟩
      rw [Bool.not_eq_true']
      exact contains_eq_false_iff.mpr hnf
  · simp only [join_to_shapefile]
    rw [if_neg hne]
    intro hcon
    cases hcon

/-- Witness for C8: a joined layer carrying only `Names` is rejected. -/
theorem join_validation_reports_missing_fields_witness :
    join_to_shapefile ["Names"]
        = JoinOutcome.validationError
            (requiredJoinFields.filter (fun f => !(["Names"] : List String).contains f)) ∧
      (∀ f, f ∈ requiredJoinFields.filter (fun f => !(["Names"] : List String).contains f) ↔
        (f ∈ requiredJoinFields ∧ f ∉ (["Names"] : List String))) ∧
      join_to_shapefile ["Names"] ≠ JoinOutcome.exported :=
  join_validation_reports_missing_fields ["Names"] (by decide)

/-- C9: the name aggregation applies the semicolon join to the raw values, so
every non-null `Name` value must be a string and a non-null non-string value
makes the aggregation raise the type error; the two acreage columns, whose
values are converted with `str` before joining, accept values of any type. -/
theorem name_column_type_requirements (t : Table) (g : String)
    (hR : t.Rect)
    (hg : resolveGroupColumn (stripHeaders t) = some g)
    (hname : "Name" ∈ (stripHeaders t).header) :
    ((∃ v ∈ (stripHeaders t).colValues "Name", v.isNull = false ∧ v.isStr = false) →
        aggregateTable t = .error .typeError) ∧
    ((∀ v ∈ (stripHeaders t).colValues "Name", v.isNull = true ∨ v.isStr = true) →
        ∃ a, aggregateTable t = .ok a) := by
  have hRd := stripHeaders_rect hR
  have hgmem : g ∈ (stripHeaders t).header := (resolveGroupColumn_some_cases hg).2
  have hn : "Name" ∈ (withDefaults (stripHeaders t)).header := mem_withDefaults_header hname
  constructor
  · rintro ⟨v, hv, hnn, hns⟩
    rcases exists_group_of_colValue hgmem hv with ⟨k, hkcol, hvgrp⟩
    have hkd : k ∈ sortedKeys (withDefaults (stripHeaders t)) g := by
      apply mem_sortedKeys.mpr
      rw [colValues_withDefaults hRd hgmem]
      exact hkcol
    have hvd : v ∈ (withDefaults (stripHeaders t)).groupColValues g "Name" k := by
      rw [groupColValues_withDefaults k hRd hgmem hname]
      exact hvgrp
    exact aggregateCore_typeError hg hn hkd hvd hnn hns
  · intro hall
    have hnames2 : ∀ k ∈ sortedKeys (withDefaults (stripHeaders t)) g,
        ∀ v ∈ (withDefaults (stripHeaders t)).groupColValues g "Name" k,
          v.isNull = true ∨ v.isStr = true := by
      intro k hk v hv
      rw [groupColValues_withDefaults k hRd hgmem hname] at hv
      exact hall v (colValue_of_groupColValue hv)
    rcases aggregateCore_ok_intro hg hn hnames2 with ⟨rows, hok⟩
    exact ⟨_, hok⟩

/-- Witness for C9: a numeric name value fails with the type error while a
table with numeric acreage values aggregates fine. -/
theorem name_column_type_requirements_witness :
    aggregateTable exBadName = Except.error AggError.typeError ∧
    ∃ a, aggregateTable exTable = Except.ok a :=
  ⟨(name_column_type_requirements exBadName "TPIN" (by decide) (by decide)
      (by decide)).1 (by decide),
   (name_column_type_requirements exTable "Tax Map Parcel ID" (by decide) (by decide)
      (by decide)).2 (by decide)⟩

/-- C10: a group whose series in an aggregated column is all null yields the
empty string in that output field — the join of an empty value sequence —
rather than a null or a dropped row. -/
theorem all_null_group_yields_empty_string (t : Table) (g : String) (a : Aggregated)
    (k : Value) (hR : t.Rect)
    (hg : resolveGroupColumn (stripHeaders t) = some g)
    (hok : aggregateTable t = .ok a)
    (hk : k ∈ (stripHeaders t).colValues g) :
    ∃ r ∈ a.table.rows, r.getD 0 Value.null = k ∧
      (((withDefaults (stripHeaders t)).groupColValues g "Name" k).all
          Value.isNull = true → r.getD 1 Value.null = Value.str "") ∧
      (((withDefaults (stripHeaders t)).groupColValues g "Acres in Unit" k).all
          Value.isNull = true → r.getD 2 Value.null = Value.str "") ∧
      (((withDefaults (stripHeaders t)).groupColValues g "Gross acres" k).all
          Value.isNull = true → r.getD 3 Value.null = Value.str "") := by
  rcases aggregateCore_ok_elim hok with ⟨g2, hg2, hn, hm, hh, hw⟩
  rw [hg] at hg2
  injection hg2 with hg2
  subst hg2
  have hRd := stripHeaders_rect hR
  have hgmem : g ∈ (stripHeaders t).header := (resolveGroupColumn_some_cases hg).2
  have hks : k ∈ sortedKeys (withDefaults (stripHeaders t)) g := by
    apply mem_sortedKeys.mpr
    rw [colValues_withDefaults hRd hgmem]
    exact hk
  rcases mapME_mem_of_ok hm k hks with ⟨r, hr, hrk⟩
  refine ⟨r, hr, ?_, ?_, ?_, ?_⟩
  · rw [aggRow_ok_elim hrk]
    rfl
  · intro hall
    rw [aggRow_ok_elim hrk]
    show Value.str (String.intercalate ";"
      ((uniqueNonNull ((withDefaults (stripHeaders t)).groupColValues g "Name" k)).map
        Value.toPyStr)) = Value.str ""
    rw [uniqueNonNull_eq_nil hall]
    rfl
  · intro hall
    rw [aggRow_ok_elim hrk]
    show Value.str (joinComma ((withDefaults (stripHeaders t)).groupColValues
      g "Acres in Unit" k)) = Value.str ""
    rw [joinComma_all_null hall]
  · intro hall
    rw [aggRow_ok_elim hrk]
    show Value.str (joinComma ((withDefaults (stripHeaders t)).groupColValues
      g "Gross acres" k)) = Value.str ""
    rw [joinComma_all_null hall]

/-- Witness for C10: the all-null acreage series of the null-key group of
`exTable` both aggregate to the empty string. -/
theorem all_null_group_yields_empty_string_witness :
    ∃ r ∈ exAgg.table.rows, r.getD 0 Value.null = Value.null ∧
      (((withDefaults (stripHeaders exTable)).groupColValues "Tax Map Parcel ID" "Name"
          Value.null).all Value.isNull = true → r.getD 1 Value.null = Value.str "") ∧
      (((withDefaults (stripHeaders exTable)).groupColValues "Tax Map Parcel ID"
          "Acres in Unit" Value.null).all Value.isNull = true →
        r.getD 2 Value.null = Value.str "") ∧
      (((withDefaults (stripHeaders exTable)).groupColValues "Tax Map Parcel ID"
          "Gross acres" Value.null).all Value.isNull = true →
        r.getD 3 Value.null = Value.str "") :=
  all_null_group_yields_empty_string exTable "Tax Map Parcel ID" exAgg Value.null
    (by decide) (by decide) (by decide) (by decide)

end ParcelAgg
